import Mathlib

/-!
Verification of the market-structure externality pipeline (`src/pipeline.py`).

Numbers are modelled as exact rationals (`ℚ`); numpy arrays as Lean lists, with
a small `NDArray` record (shape plus row-major data) where a claim depends on
array shape.  Fallible functions return `Except String`.  Pandas `groupby`
semantics are modelled explicitly: with the default `sort=True` the groups are
the distinct key triples in ascending lexicographic order, each group keeping
the original row order; with `sort=False` the groups appear in order of first
appearance.
-/

/-- Dot product of two rational vectors, `a @ b` in numpy. -/
def dot (a b : List ℚ) : ℚ := (List.zipWith (fun x y => x * y) a b).sum

/-- Elementwise sum of a list of equal-length vectors, `arr.sum(axis=0)`. -/
def vsum : List (List ℚ) → List ℚ
  | [] => []
  | [v] => v
  | v :: vs => List.zipWith (fun x y => x + y) v (vsum vs)

/-- One airline-level market observation: one row of the table consumed by
`determine_effect_coeff` (columns OriginAirportID, Year, Month, MarketShare,
HHI, MonthlyFlights, AirportHubSize, AirlineHubSize, and the one-hot
`AirlineHubSize_0 .. AirlineHubSize_3` hub-dummy columns, the latter stored
as the list `hubDummy`). -/
structure Obs where
  originAirportID : Int
  year : Int
  month : Int
  marketShare : ℚ
  hhi : ℚ
  monthlyFlights : ℚ
  airportHubSize : ℚ
  airlineHubSize : ℚ
  hubDummy : List ℚ
deriving DecidableEq

/-- Group key of a row: the `("OriginAirportID", "Year", "Month")` triple. -/
abbrev MarketKey := Int × Int × Int

/-- Group key of one observation. -/
def obsKey (o : Obs) : MarketKey := (o.originAirportID, o.year, o.month)

/-- Lexicographic order on group keys; pandas sorts group keys ascending. -/
def keyLE (a b : MarketKey) : Prop :=
  a.1 < b.1 ∨ (a.1 = b.1 ∧ (a.2.1 < b.2.1 ∨ (a.2.1 = b.2.1 ∧ a.2.2 ≤ b.2.2)))

instance : DecidableRel keyLE := fun a b => by unfold keyLE; infer_instance

instance : IsTotal MarketKey keyLE := by
  constructor; intro a b; unfold keyLE; omega

instance : IsTrans MarketKey keyLE := by
  constructor; intro a b c; unfold keyLE; omega

instance : IsAntisymm MarketKey keyLE := by
  constructor
  intro a b hab hba
  unfold keyLE at hab hba
  have h1 : a.1 = b.1 := by omega
  have h2 : a.2.1 = b.2.1 := by omega
  have h3 : a.2.2 = b.2.2 := by omega
  obtain ⟨a1, a2, a3⟩ := a
  obtain ⟨b1, b2, b3⟩ := b
  simp_all

/-- Rows of the table having the given group key, in original row order:
one pandas `groupby` group. -/
def groupRows (df : List Obs) (k : MarketKey) : List Obs :=
  df.filter (fun o => decide (obsKey o = k))

/-- Distinct group keys of the table in ascending order: the iteration order
of `df.groupby(keys)` with the default `sort=True`. -/
def marketKeys (df : List Obs) : List MarketKey :=
  List.insertionSort keyLE (df.map obsKey).dedup

/-- Distinct group keys in order of first appearance (auxiliary). -/
def dedupFirstAux (seen : List MarketKey) : List MarketKey → List MarketKey
  | [] => []
  | k :: rest =>
    if k ∈ seen then dedupFirstAux seen rest
    else k :: dedupFirstAux (k :: seen) rest

/-- Distinct group keys in order of first appearance: the iteration order of
`df.groupby(keys, sort=False)`. -/
def dedupFirst (l : List MarketKey) : List MarketKey := dedupFirstAux [] l

/-- Groups with more than one observation, in sorted key order: the groups the
`determine_effect_coeff` loop actually processes (`if len(group) <= 1:
continue`). -/
def eligibleGroups (df : List Obs) : List (List Obs) :=
  ((marketKeys df).map (groupRows df)).filter (fun g => decide (1 < g.length))

/-- Groups with more than one observation, in first-appearance key order: the
groups the `determine_effect_coeff_true` loop processes (`sort=False`). -/
def eligibleGroupsFA (df : List Obs) : List (List Obs) :=
  ((dedupFirst (df.map obsKey)).map (groupRows df)).filter
    (fun g => decide (1 < g.length))

/-- Numpy array: shape and row-major data.  A genuine array satisfies
`data.length = shape.prod`; functions below only read the fields the source
reads. -/
structure NDArray where
  shape : List Nat
  data : List ℚ
deriving DecidableEq

/-- Splits row-major data into rows of length `c` (auxiliary, fuel-driven). -/
def chunkRowsAux : Nat → Nat → List ℚ → List (List ℚ)
  | 0, _, _ => []
  | _ + 1, _, [] => []
  | fuel + 1, c, l => l.take c :: chunkRowsAux fuel c (l.drop c)

/-- Rows of a 2-D array with `c` columns. -/
def chunkRows (c : Nat) (l : List ℚ) : List (List ℚ) :=
  if c = 0 then [] else chunkRowsAux l.length c l

/-- Own marginal-concentration term `comp_1 = 2.0 * (s - hhi)` of one
observation. -/
def comp1 (o : Obs) : ℚ := 2 * (o.marketShare - o.hhi)

/-- Hub-weighted own contribution `s_i * I_i` of one observation. -/
def ownHubShare (o : Obs) : List ℚ :=
  o.hubDummy.map (fun d => o.marketShare * d)

/-- Per-market totals `S_total_by_bin = (s[:, None] * I).sum(axis=0)`. -/
def sTotalByBin (g : List Obs) : List ℚ := vsum (g.map ownHubShare)

/-- Competitor vector `others_by_bin = S_total_by_bin - s_i * I_i` of one
observation within its group. -/
def othersByBin (g : List Obs) (o : Obs) : List ℚ :=
  List.zipWith (fun x y => x - y) (sTotalByBin g) (ownHubShare o)

/-- Simulated effect row of one observation: for each coefficient draw `d`,
`comp_1 * (d @ others_by_bin)`. -/
def effectRow (draws : List (List ℚ)) (g : List Obs) (o : Obs) : List ℚ :=
  draws.map (fun d => comp1 o * dot d (othersByBin g o))

/-- Per-group effect matrix `effect_mat = comp_1[:, None] * comp_2`
(`n_airlines` rows, `num_sims` columns). -/
def groupEffectMat (draws : List (List ℚ)) (g : List Obs) : List (List ℚ) :=
  g.map (effectRow draws g)

/-- Output record of `determine_effect_coeff`: the four parallel length-N
arrays, the `(N, num_sims)` effect matrix, and the group-id array. -/
structure EffOut where
  monthly_flights : List ℚ
  market_share : List ℚ
  airport_hub_size : List ℚ
  effect : NDArray
  group_id : List Int
deriving DecidableEq

/-- Effect Propagator, the surviving parameterized definition of
`determine_effect_coeff` (src/pipeline.py lines 260-340).  `nbins` is the
number of configured hub-dummy columns (`len(hub_dummy_cols)`, 4 by
default); the hub-dummy columns selected from the table are the `hubDummy`
field of each observation.  The missing-column check cannot fire in this
model because every `Obs` carries all required columns. -/
def determine_effect_coeff (nbins : Nat) (random_sample : NDArray)
    (df : List Obs) : Except String EffOut :=
  if random_sample.shape.length ≠ 2 ∨ random_sample.shape.getD 1 0 ≠ nbins then
    Except.error ("random_sample must have shape (num_sims, nbins)")
  else
    let draws := chunkRows nbins random_sample.data
    let gs := eligibleGroups df
    if gs = [] then
      Except.ok
        ⟨[], [], [], ⟨[0, random_sample.shape.getD 0 0], []⟩, []⟩
    else
      Except.ok
        ⟨gs.flatMap (fun g => g.map (fun o => o.monthlyFlights)),
         gs.flatMap (fun g => g.map (fun o => o.marketShare)),
         gs.flatMap (fun g => g.map (fun o => o.airportHubSize)),
         ⟨[(gs.flatMap (fun g => g)).length, draws.length],
          ((gs.map (groupEffectMat draws)).flatten).flatten⟩,
         gs.flatMap (fun g => g.map (fun o => o.originAirportID))⟩

/-- Output row of `determine_effect_coeff_true`: one row of its result
DataFrame. -/
structure TrueRow where
  monthly_flights : ℚ
  market_share : ℚ
  airport_hub_size : ℚ
  airline_hub_size : ℚ
  hhi : ℚ
  num_airlines : Nat
  airport_id : Int
  effect : ℚ
deriving DecidableEq

/-- Rows contributed by one eligible group in `determine_effect_coeff_true`:
`effect = comp_1 * float(true_params @ other_airlines_market_share)`. -/
def trueBlock (tp : List ℚ) (g : List Obs) : List TrueRow :=
  g.map (fun o =>
    ⟨o.monthlyFlights, o.marketShare, o.airportHubSize, o.airlineHubSize,
     o.hhi, g.length, o.originAirportID, comp1 o * dot tp (othersByBin g o)⟩)

/-- Point-estimate Effect Propagator `determine_effect_coeff_true`
(src/pipeline.py lines 606-710): fixed length-4 coefficient vector, groups
iterated with `sort=False` (first-appearance order). -/
def determine_effect_coeff_true (tp : List ℚ) (df : List Obs) :
    Except String (List TrueRow) :=
  if tp.length ≠ 4 then
    Except.error ("true_params must be a length-4 vector")
  else
    Except.ok ((eligibleGroupsFA df).flatMap (trueBlock tp))

/-- Decomposition method passed to `rng.multivariate_normal`. -/
inductive MvnMethod
  | svd
  | cholesky
deriving DecidableEq

/-- Model of the numpy multivariate-normal sampler: given the seed handed to
`np.random.default_rng`, the mean vector, the covariance matrix, the number
of draws and the decomposition method, it yields the draw matrix.  The
samplers below derive all randomness from one such call, mirroring
`rng = np.random.default_rng(seed); rng.multivariate_normal(...)`. -/
def MvnLib : Type :=
  Int → List ℚ → List (List ℚ) → Nat → MvnMethod → List (List ℚ)

/-- Simple-mode Coefficient Sampler `basic_random_sample` (src/pipeline.py
lines 81-125).  CSV parsing is I/O and is modelled by passing the parsed
point estimates `mu` (the `hhiorigin, hhidest` pair) and covariance matrix
directly; the multivariate-normal draw is obtained from the `lib` model. -/
def basic_random_sample (lib : MvnLib) (mu : List ℚ) (Sigma : List (List ℚ))
    (num_sims : Nat) (seed : Int) :
    Except String (List (List ℚ) × List ℚ) :=
  if num_sims = 0 then
    Except.error ("num_sims must be positive.")
  else
    let draws := lib seed mu Sigma num_sims MvnMethod.svd
    let combined := draws.map List.sum
    Except.ok
      (combined.map (fun c => List.replicate 4 c), List.replicate 4 mu.sum)

/-- Hub-decomposed Coefficient Sampler `hub_random_sample` (src/pipeline.py
lines 130-180): draws `(num_sims, 8)`, then `draws[:, :4] + draws[:, 4:]`
and `mu[:4] + mu[4:]`. -/
def hub_random_sample (lib : MvnLib) (mu : List ℚ) (Sigma : List (List ℚ))
    (num_sims : Nat) (seed : Int) :
    Except String (List (List ℚ) × List ℚ) :=
  if num_sims = 0 then
    Except.error ("num_sims must be positive.")
  else
    let draws := lib seed mu Sigma num_sims MvnMethod.cholesky
    let random_sample :=
      draws.map (fun r => List.zipWith (fun x y => x + y) (r.take 4) (r.drop 4))
    Except.ok (random_sample, List.zipWith (fun x y => x + y) (mu.take 4) (mu.drop 4))

/-- Weighted least-squares fit of `y = a + b x` by the normal equations
(design matrix `[1, x]`): returns `(intercept, slope)`, the order of
`results.params`.  For a singular design statsmodels falls back to the
pseudoinverse solution; no claim depends on that value, modelled as
`(0, 0)`. -/
def wlsParams (x y w : List ℚ) : ℚ × ℚ :=
  let sw := w.sum
  let sx := dot w x
  let sy := dot w y
  let sxx := dot w (List.zipWith (fun a b => a * b) x x)
  let sxy := dot w (List.zipWith (fun a b => a * b) x y)
  let det := sw * sxx - sx * sx
  if det = 0 then (0, 0)
  else ((sxx * sy - sx * sxy) / det, (sw * sxy - sx * sy) / det)

/-- Ordinary least squares: weighted least squares with unit weights. -/
def olsParams (x y : List ℚ) : ℚ × ℚ :=
  wlsParams x y (List.replicate x.length 1)

/-- Parameter estimate of one regression call: OLS when no weights are
passed, WLS otherwise. -/
def lsParams (x y : List ℚ) (w : Option (List ℚ)) : ℚ × ℚ :=
  match w with
  | none => olsParams x y
  | some wv => wlsParams x y wv

/-- Modelled from the spec: the statsmodels `OLS`/`WLS` regression call
(external to src/) fails on an empty stratum, per §4.4 of the spec ("a hub
stratum with zero observations yields an empty regression input — the
regression call itself must fail predictably"); on nonempty input it fits
`y = a + b x` (weighted) least squares and returns `(intercept, slope)`. -/
def lsFit (x y : List ℚ) (w : Option (List ℚ)) : Except String (ℚ × ℚ) :=
  if x.isEmpty then Except.error ("empty regression input")
  else Except.ok (lsParams x y w)

/-- Indices of the observations in hub stratum `h`: the boolean mask
`hub_size == hub`. -/
def hubIdx (hub_size : List ℚ) (h : ℚ) : List Nat :=
  (List.range hub_size.length).filter (fun i => decide (hub_size.getD i 0 = h))

/-- Boolean-mask slice of a parallel array. -/
def sliceAt (l : List ℚ) (idx : List Nat) : List ℚ :=
  idx.map (fun i => l.getD i 0)

/-- Column `c` of the effect matrix, `effect[:, c]`. -/
def columnOf (effect : List (List ℚ)) (c : Nat) : List ℚ :=
  effect.map (fun r => r.getD c 0)

/-- Arithmetic mean of a vector, `vec.mean()`. -/
def mean (l : List ℚ) : ℚ := l.sum / (l.length : ℚ)

/-- Value of the q-th percentile of a nonempty vector: numpy's default
linear interpolation between the two bracketing order statistics. -/
def percentileVal (l : List ℚ) (q : ℚ) : ℚ :=
  let sorted := List.insertionSort (fun a b => a ≤ b) l
  let pos := ((l.length : ℚ) - 1) * q / 100
  let i := Int.toNat ⌊pos⌋
  let fr := pos - (Int.toNat ⌊pos⌋ : ℚ)
  let lo := sorted.getD i 0
  lo + fr * (sorted.getD (i + 1) lo - lo)

/-- Modelled from the spec: `np.percentile` (external to src/) over the
per-hub intercept/slope vectors.  On an empty vector the call raises
(zero-size reduction), the predictable failure §4.4 requires for an empty
stratum's statistics; on a nonempty vector it returns the
linear-interpolation percentile. -/
def percentile (l : List ℚ) (q : ℚ) : Except String ℚ :=
  if l.isEmpty then
    Except.error ("zero-size array to reduction operation")
  else Except.ok (percentileVal l q)

/-- Summary statistics of one coefficient vector across simulations:
median, mean, 2.5th and 97.5th percentile. -/
structure StatSummary where
  median : ℚ
  mean : ℚ
  p2_5 : ℚ
  p97_5 : ℚ
deriving DecidableEq

/-- Per-hub summary record of `find_slopes`: observation count plus the
intercept and slope statistics. -/
structure HubSummary where
  n_obs : Nat
  intercept : StatSummary
  slope : StatSummary
deriving DecidableEq

/-- Summary record computed from nonempty intercept and slope vectors. -/
def summaryVals (n_obs : Nat) (iv sv : List ℚ) : HubSummary :=
  ⟨n_obs,
   ⟨percentileVal iv 50, mean iv, percentileVal iv (5/2),
    percentileVal iv (195/2)⟩,
   ⟨percentileVal sv 50, mean sv, percentileVal sv (5/2),
    percentileVal sv (195/2)⟩⟩

/-- Summary block of one hub iteration (src/pipeline.py lines 435-449): the
percentile calls run in source order, so an empty vector fails at the first
median. -/
def summarize (n_obs : Nat) (intercept_vec slope_vec : List ℚ) :
    Except String HubSummary :=
  do
    let imed ← percentile intercept_vec 50
    let ip2 ← percentile intercept_vec (5/2)
    let ip97 ← percentile intercept_vec (195/2)
    let smed ← percentile slope_vec 50
    let sp2 ← percentile slope_vec (5/2)
    let sp97 ← percentile slope_vec (195/2)
    pure ⟨n_obs, ⟨imed, mean intercept_vec, ip2, ip97⟩,
          ⟨smed, mean slope_vec, sp2, sp97⟩⟩

/-- Column loop of one hub iteration of `find_slopes`: one regression call
per simulation column on the hub-sliced data, then the per-hub summary
statistics; returns (slopes, intercepts, summary). -/
def hubFitRegs (ms_h : List ℚ) (effect : List (List ℚ)) (idx : List Nat)
    (w_h : Option (List ℚ)) (cols : Nat) :
    Except String (List ℚ × List ℚ × HubSummary) :=
  do
    let fits ← (List.range cols).mapM
      (fun c => lsFit ms_h (sliceAt (columnOf effect c) idx) w_h)
    let summary ← summarize idx.length (fits.map (fun p => p.1))
      (fits.map (fun p => p.2))
    pure (fits.map (fun p => p.2), fits.map (fun p => p.1), summary)

/-- Per-hub body of the `find_slopes` loop: slices the arrays with the hub
mask, raises on a non-positive sliced weight, then fits every simulation
column. -/
def hubFit (market_share hub_size : List ℚ) (effect : List (List ℚ))
    (weights : Option (List ℚ)) (cols : Nat) (h : ℚ) :
    Except String (List ℚ × List ℚ × HubSummary) :=
  let idx := hubIdx hub_size h
  match weights with
  | none => hubFitRegs (sliceAt market_share idx) effect idx none cols
  | some w =>
    if (sliceAt w idx).any (fun x => decide (x ≤ 0)) then
      Except.error ("Non-positive weights found for hub")
    else
      hubFitRegs (sliceAt market_share idx) effect idx
        (some (sliceAt w idx)) cols

/-- Output of `find_slopes`: per-hub slope and intercept vectors (length
`num_sims` each) and the per-hub summary records in hub order 0..3 (the
source keys its summary dict by hub). -/
structure SlopesOut where
  slopes : List (List ℚ)
  intercepts : List (List ℚ)
  summary : List HubSummary
deriving DecidableEq

/-- Bool test for a mismatched weight vector length. -/
def weightsLenBad (weights : Option (List ℚ)) (n : Nat) : Bool :=
  match weights with
  | none => false
  | some w => decide (w.length ≠ n)

/-- Hub-Stratified Regressor `find_slopes` (src/pipeline.py lines 344-451):
alignment checks, then for each hub category 0..3 a weight check and one
(weighted) least-squares fit per simulation column. -/
def find_slopes (market_share hub_size : List ℚ) (effect : List (List ℚ))
    (weights : Option (List ℚ)) : Except String SlopesOut :=
  if market_share.length ≠ hub_size.length ∨
      market_share.length ≠ effect.length then
    Except.error ("market_share, hub_size, and effect must align on the first dimension (N).")
  else if weightsLenBad weights hub_size.length then
    Except.error ("weights must have the same length as hub_size.")
  else
    let cols := (effect.headD []).length
    do
      let rs ← ([0, 1, 2, 3] : List ℚ).mapM
        (hubFit market_share hub_size effect weights cols)
      pure ⟨rs.map (fun r => r.1), rs.map (fun r => r.2.1),
            rs.map (fun r => r.2.2)⟩

/-- Tests whether an `Except` result is an error. -/
def isErr {α : Type} (e : Except String α) : Bool :=
  match e with
  | Except.error _ => true
  | Except.ok _ => false

/-- Count of simulation draws in which value `i` strictly exceeds value `j`:
the numerator of entry `(i, j)` of `(arr[:, :, None] > arr[:, None, :]).mean(axis=0)`. -/
def gtCount (arr : List (List ℚ)) (i j : Nat) : Nat :=
  (arr.filter (fun r => decide (r.getD j 0 < r.getD i 0))).length

/-- Count of simulation draws in which values `i` and `j` tie. -/
def eqCount (arr : List (List ℚ)) (i j : Nat) : Nat :=
  (arr.filter (fun r => decide (r.getD i 0 = r.getD j 0))).length

/-- Dominance Engine `prob_values_different` (src/pipeline.py lines 453-509)
on a 2-D `(num_sims, K)` input: the `K × K` matrix with entry `(i, j)` the
fraction of draws where value `i > value j`, diagonal `NaN` (`none`) by
default or `0.5` when `include_diagonal` is set.  The optional labels only
name the DataFrame rows/columns and are omitted. -/
def prob_values_different (arr : List (List ℚ)) (include_diagonal : Bool) :
    List (List (Option ℚ)) :=
  let n := arr.length
  let k := (arr.headD []).length
  (List.range k).map (fun i => (List.range k).map (fun j =>
    if i = j then (if include_diagonal then some (1 / 2) else none)
    else some ((gtCount arr i j : ℚ) / (n : ℚ))))

/-! ## Theorems -/

/-- C1: For the Effect Propagator applied to a single market with two
observations having market shares 0.6 and 0.4, hub-dummy vectors one-hot at
bin 2, market HHI 0.52, and the single coefficient draw row [0,0,5.0,0]:
observation 1 has others vector [0,0,0.4,0], comp1 = 0.16, comp2 = 2.0 and
effect 0.32; observation 2 has comp1 = -0.24, others[2] = 0.6, comp2 = 3.0
and effect -0.72; the returned effect matrix is [[0.32],[-0.72]] in
row-correspondence with the two observations. -/
theorem c1_effect_propagator_example :
    comp1 ⟨1, 2000, 1, 3/5, 13/25, 10, 1, 2, [0,0,1,0]⟩ = 4/25 ∧
    othersByBin
      [⟨1, 2000, 1, 3/5, 13/25, 10, 1, 2, [0,0,1,0]⟩,
       ⟨1, 2000, 1, 2/5, 13/25, 20, 1, 2, [0,0,1,0]⟩]
      ⟨1, 2000, 1, 3/5, 13/25, 10, 1, 2, [0,0,1,0]⟩ = [0, 0, 2/5, 0] ∧
    dot [0, 0, 5, 0]
      (othersByBin
        [⟨1, 2000, 1, 3/5, 13/25, 10, 1, 2, [0,0,1,0]⟩,
         ⟨1, 2000, 1, 2/5, 13/25, 20, 1, 2, [0,0,1,0]⟩]
        ⟨1, 2000, 1, 3/5, 13/25, 10, 1, 2, [0,0,1,0]⟩) = 2 ∧
    comp1 ⟨1, 2000, 1, 2/5, 13/25, 20, 1, 2, [0,0,1,0]⟩ = -(6/25) ∧
    (othersByBin
      [⟨1, 2000, 1, 3/5, 13/25, 10, 1, 2, [0,0,1,0]⟩,
       ⟨1, 2000, 1, 2/5, 13/25, 20, 1, 2, [0,0,1,0]⟩]
      ⟨1, 2000, 1, 2/5, 13/25, 20, 1, 2, [0,0,1,0]⟩).getD 2 0 = 3/5 ∧
    dot [0, 0, 5, 0]
      (othersByBin
        [⟨1, 2000, 1, 3/5, 13/25, 10, 1, 2, [0,0,1,0]⟩,
         ⟨1, 2000, 1, 2/5, 13/25, 20, 1, 2, [0,0,1,0]⟩]
        ⟨1, 2000, 1, 2/5, 13/25, 20, 1, 2, [0,0,1,0]⟩) = 3 ∧
    determine_effect_coeff 4 ⟨[1, 4], [0, 0, 5, 0]⟩
      [⟨1, 2000, 1, 3/5, 13/25, 10, 1, 2, [0,0,1,0]⟩,
       ⟨1, 2000, 1, 2/5, 13/25, 20, 1, 2, [0,0,1,0]⟩] =
      Except.ok
        ⟨[10, 20], [3/5, 2/5], [1, 1], ⟨[2, 1], [8/25, -(18/25)]⟩, [1, 1]⟩ := by
  norm_num [determine_effect_coeff, eligibleGroups, marketKeys, groupRows,
    obsKey, List.insertionSort, List.orderedInsert, List.dedup, List.pwFilter,
    chunkRows, chunkRowsAux, groupEffectMat, effectRow, comp1, othersByBin,
    sTotalByBin, ownHubShare, vsum, dot]

/-- C7: For every input, the Effect Propagator raises a shape-mismatch error,
before producing any output, exactly when the draw matrix is not
2-dimensional or its column count differs from the number of configured
hub-dummy columns; with a conforming draw matrix the error branch is
unreachable. -/
theorem c7_shape_guard (nbins : Nat) (rs : NDArray) (df : List Obs) :
    isErr (determine_effect_coeff nbins rs df) =
      (decide (rs.shape.length ≠ 2) || decide (rs.shape.getD 1 0 ≠ nbins)) := by
  unfold determine_effect_coeff
  split
  next h =>
    have hor : (decide (rs.shape.length ≠ 2) ||
        decide (rs.shape.getD 1 0 ≠ nbins)) = true := by
      rcases h with h | h
      · simp only [decide_eq_true h, Bool.true_or]
      · simp only [decide_eq_true h, Bool.or_true]
    rw [hor]; rfl
  next h =>
    push_neg at h
    have hA : (decide (rs.shape.length ≠ 2)) = false :=
      decide_eq_false (fun hn => hn h.1)
    have hB : (decide (rs.shape.getD 1 0 ≠ nbins)) = false :=
      decide_eq_false (fun hn => hn h.2)
    rw [hA, hB]
    cases hgs : eligibleGroups df <;> simp [isErr, hgs]

/-- C3: If every market group has at most one observation and the draw matrix
conforms, the Effect Propagator returns four empty arrays and a 0-row,
num_sims-column effect matrix (num_sims the draw matrix's row count) instead
of raising: the all-markets-excluded case is a valid empty-result state. -/
theorem c3_empty_result (df : List Obs) (rs : NDArray) (n nbins : Nat)
    (hshape : rs.shape = [n, nbins])
    (hsmall : ∀ k ∈ marketKeys df, (groupRows df k).length ≤ 1) :
    determine_effect_coeff nbins rs df =
      Except.ok ⟨[], [], [], ⟨[0, n], []⟩, []⟩ := by
  have hgs : eligibleGroups df = [] := by
    apply List.filter_eq_nil_iff.mpr
    intro g hg
    simp only [List.mem_map] at hg
    obtain ⟨k, hk, rfl⟩ := hg
    have hle := hsmall k hk
    simp only [decide_eq_true_eq]
    omega
  unfold determine_effect_coeff
  simp [hshape, hgs]

/-- C3 witness: two single-airline markets and a conforming (3, 4) draw
matrix give the empty result. -/
theorem c3_empty_result_witness :
    determine_effect_coeff 4 ⟨[3, 4], [0,0,0,0,0,0,0,0,0,0,0,0]⟩
      [⟨1, 2000, 1, 1, 1, 5, 0, 0, [1,0,0,0]⟩,
       ⟨2, 2000, 1, 1, 1, 6, 0, 0, [1,0,0,0]⟩] =
      Except.ok ⟨[], [], [], ⟨[0, 3], []⟩, []⟩ :=
  c3_empty_result
    [⟨1, 2000, 1, 1, 1, 5, 0, 0, [1,0,0,0]⟩,
     ⟨2, 2000, 1, 1, 1, 6, 0, 0, [1,0,0,0]⟩]
    ⟨[3, 4], [0,0,0,0,0,0,0,0,0,0,0,0]⟩ 3 4 rfl
    (by norm_num [marketKeys, groupRows, obsKey, List.insertionSort,
      List.orderedInsert, List.dedup, List.pwFilter, keyLE])

/-- C9: the Coefficient Samplers derive all randomness from the single
seeded generator call: any two runs whose multivariate-normal generator
models agree at the one query the code makes (same seed, mean, covariance,
draw count and decomposition method) return identical draw matrices and
true_params vectors, for both `basic_random_sample` and
`hub_random_sample`. -/
theorem c9_sampler_determinism (lib1 lib2 : MvnLib)
    (mu2 mu8 : List ℚ) (S2 S8 : List (List ℚ)) (n : Nat) (seed : Int)
    (hbasic : lib1 seed mu2 S2 n MvnMethod.svd =
      lib2 seed mu2 S2 n MvnMethod.svd)
    (hhub : lib1 seed mu8 S8 n MvnMethod.cholesky =
      lib2 seed mu8 S8 n MvnMethod.cholesky) :
    basic_random_sample lib1 mu2 S2 n seed =
        basic_random_sample lib2 mu2 S2 n seed ∧
      hub_random_sample lib1 mu8 S8 n seed =
        hub_random_sample lib2 mu8 S8 n seed := by
  constructor
  · unfold basic_random_sample
    rw [hbasic]
  · unfold hub_random_sample
    rw [hhub]

/-- C9 witness: a concrete generator model, identical in both runs, gives
identical sampler outputs. -/
theorem c9_sampler_determinism_witness :
    basic_random_sample (fun _ _ _ k _ => List.replicate k [1, 2])
        [0, 1] [[1, 0], [0, 1]] 2 12345 =
      basic_random_sample (fun _ _ _ k _ => List.replicate k [1, 2])
        [0, 1] [[1, 0], [0, 1]] 2 12345 ∧
    hub_random_sample (fun _ _ _ k _ => List.replicate k [1, 2])
        [0, 1, 2, 3, 4, 5, 6, 7] [[1]] 2 12345 =
      hub_random_sample (fun _ _ _ k _ => List.replicate k [1, 2])
        [0, 1, 2, 3, 4, 5, 6, 7] [[1]] 2 12345 :=
  c9_sampler_determinism (fun _ _ _ k _ => List.replicate k [1, 2])
    (fun _ _ _ k _ => List.replicate k [1, 2])
    [0, 1] [0, 1, 2, 3, 4, 5, 6, 7] [[1, 0], [0, 1]] [[1]] 2 12345 rfl rfl

/-- C5: the simple-mode Coefficient Sampler returns a (num_sims, 4) draw
matrix whose 4 columns are identical, each entry of row s being the sum of
the two components of the s-th joint draw, and a length-4 true_params
vector each entry of which is the sum of the two point estimates: the
replication across the 4 hub columns is the specified behaviour. -/
theorem c5_basic_sampler_replication (lib : MvnLib) (mu0 mu1 : ℚ)
    (Sigma : List (List ℚ)) (n : Nat) (seed : Int)
    (hn : 0 < n)
    (hlen : (lib seed [mu0, mu1] Sigma n MvnMethod.svd).length = n)
    (hrows : ∀ r ∈ lib seed [mu0, mu1] Sigma n MvnMethod.svd, r.length = 2) :
    ∃ rs, basic_random_sample lib [mu0, mu1] Sigma n seed =
        Except.ok (rs, [mu0 + mu1, mu0 + mu1, mu0 + mu1, mu0 + mu1]) ∧
      rs.length = n ∧
      ∀ s, s < n → ∃ a b,
        (lib seed [mu0, mu1] Sigma n MvnMethod.svd).getD s [] = [a, b] ∧
        rs.getD s [] = [a + b, a + b, a + b, a + b] := by
  refine ⟨((lib seed [mu0, mu1] Sigma n MvnMethod.svd).map List.sum).map
    (fun c => List.replicate 4 c), ?_, ?_, ?_⟩
  · unfold basic_random_sample
    rw [if_neg (by omega)]
    norm_num [List.sum_cons, List.replicate]
  · simp [hlen]
  · intro s hs
    have hsl : s < (lib seed [mu0, mu1] Sigma n MvnMethod.svd).length := by
      rw [hlen]; exact hs
    have hmem : (lib seed [mu0, mu1] Sigma n MvnMethod.svd).getD s [] ∈
        lib seed [mu0, mu1] Sigma n MvnMethod.svd := by
      rw [List.getD_eq_getElem _ _ hsl]
      exact List.getElem_mem hsl
    have hr2 := hrows _ hmem
    rcases hab : (lib seed [mu0, mu1] Sigma n MvnMethod.svd).getD s [] with
      _ | ⟨a, tl⟩
    · rw [hab] at hr2; simp at hr2
    rcases tl with _ | ⟨b, tl2⟩
    · rw [hab] at hr2; simp at hr2
    rcases tl2 with _ | ⟨c, tl3⟩
    · refine ⟨a, b, rfl, ?_⟩
      have hgd : ∀ (L : List (List ℚ)) (f : List ℚ → List ℚ) (hsL : s < L.length),
          (L.map f).getD s [] = f (L.getD s []) := by
        intro L f hsL
        rw [List.getD_eq_getElem _ _ (by simpa using hsL),
          List.getD_eq_getElem _ _ hsL]
        simp
      rw [List.map_map, hgd _ _ hsl, hab]
      norm_num [List.sum_cons, List.replicate]
    · rw [hab] at hr2; simp at hr2

/-- C5 witness: a concrete generator model with two-component rows. -/
theorem c5_basic_sampler_replication_witness :
    ∃ rs, basic_random_sample (fun _ _ _ k _ => List.replicate k [1, 2])
        [10, 20] [[1, 0], [0, 1]] 3 12345 =
        Except.ok (rs, [10 + 20, 10 + 20, 10 + 20, 10 + 20]) ∧
      rs.length = 3 ∧
      ∀ s, s < 3 → ∃ a b,
        ((fun (_ : Int) (_ : List ℚ) (_ : List (List ℚ)) (k : Nat)
            (_ : MvnMethod) => List.replicate k [(1 : ℚ), 2]) 12345 [10, 20]
          [[1, 0], [0, 1]] 3 MvnMethod.svd).getD s [] = [a, b] ∧
        rs.getD s [] = [a + b, a + b, a + b, a + b] :=
  c5_basic_sampler_replication (fun _ _ _ k _ => List.replicate k [1, 2])
    10 20 [[1, 0], [0, 1]] 3 12345 (by norm_num) (by simp) (by simp)

/-- Helper: indexing a mapped range at an in-bounds position. -/
theorem getD_map_range {α : Type} (f : Nat → α) (d : α) {i k : Nat}
    (hik : i < k) : ((List.range k).map f).getD i d = f i := by
  rw [List.getD_eq_getElem _ _ (by simpa using hik)]
  simp

/-- Helper: every simulation draw row makes value i strictly above value j,
strictly below it, or ties it, so the three counts partition num_sims. -/
theorem count_partition (arr : List (List ℚ)) (i j : Nat) :
    gtCount arr i j + gtCount arr j i + eqCount arr i j = arr.length := by
  induction arr with
  | nil => rfl
  | cons r t ih =>
    have e1 : ∀ (p : List ℚ → Bool) (l : List (List ℚ)) (a : List ℚ),
        (List.filter p (a :: l)).length =
          (List.filter p l).length + (if p a = true then 1 else 0) := by
      intro p l a
      by_cases hpa : p a = true <;> simp [List.filter_cons, hpa]
    unfold gtCount eqCount at ih ⊢
    rw [e1, e1, e1]
    simp only [decide_eq_true_eq, List.length_cons]
    rcases lt_trichotomy (r.getD i 0) (r.getD j 0) with h | h | h
    · rw [if_neg (lt_asymm h), if_pos h, if_neg (ne_of_lt h)]
      omega
    · rw [if_neg (by rw [h]; exact lt_irrefl _),
        if_neg (by rw [h]; exact lt_irrefl _), if_pos h]
      omega
    · rw [if_pos h, if_neg (lt_asymm h), if_neg (ne_of_gt h)]
      omega

/-- C4: on a (num_sims, K) input with num_sims ≥ 1 the Dominance Engine
returns a K×K matrix whose entry (i,j), i ≠ j, is the fraction of draws in
which value i strictly exceeds value j (ties counting as neither), whose
diagonal is NaN by default and exactly 0.5 when the caller opts in, and all
of whose entries lie in [0,1] or are NaN. -/
theorem c4_dominance_matrix (arr : List (List ℚ)) (dflag : Bool) (k : Nat)
    (hn : 0 < arr.length) (hrect : ∀ r ∈ arr, r.length = k) :
    (prob_values_different arr dflag).length = k ∧
    (∀ row ∈ prob_values_different arr dflag, row.length = k) ∧
    (∀ i j, i < k → j < k → i ≠ j →
      ((prob_values_different arr dflag).getD i []).getD j none =
        some ((gtCount arr i j : ℚ) / (arr.length : ℚ))) ∧
    (∀ i, i < k →
      ((prob_values_different arr dflag).getD i []).getD i none =
        (if dflag then some (1 / 2) else none)) ∧
    (∀ i j, i < k → j < k →
      ((prob_values_different arr dflag).getD i []).getD j none = none ∨
      ∃ q, ((prob_values_different arr dflag).getD i []).getD j none = some q ∧
        0 ≤ q ∧ q ≤ 1) := by
  have hk : (arr.headD []).length = k := by
    cases arr with
    | nil => simp at hn
    | cons r t => exact hrect r (by simp)
  refine ⟨?_, ?_, ?_, ?_, ?_⟩
  · unfold prob_values_different
    rw [hk]
    simp
  · intro row hrow
    simp only [prob_values_different, hk, List.mem_map] at hrow
    obtain ⟨i, hi, rfl⟩ := hrow
    simp
  · intro i j hi hj hne
    unfold prob_values_different
    rw [hk, getD_map_range _ _ hi, getD_map_range _ _ hj, if_neg hne]
  · intro i hi
    unfold prob_values_different
    rw [hk, getD_map_range _ _ hi, getD_map_range _ _ hi, if_pos rfl]
  · intro i j hi hj
    unfold prob_values_different
    rw [hk, getD_map_range _ _ hi, getD_map_range _ _ hj]
    by_cases hij : i = j
    · rw [if_pos hij]
      cases dflag with
      | false => exact Or.inl (by simp)
      | true => exact Or.inr ⟨1 / 2, by norm_num⟩
    · rw [if_neg hij]
      refine Or.inr ⟨(gtCount arr i j : ℚ) / (arr.length : ℚ), rfl, ?_, ?_⟩
      · positivity
      · rw [div_le_one (by exact_mod_cast hn)]
        exact_mod_cast List.length_filter_le _ arr

/-- C4 witness: a concrete (3, 2) input. -/
theorem c4_dominance_matrix_witness :
    (prob_values_different [[1, 2], [2, 1], [1, 1]] false).length = 2 ∧
    (∀ row ∈ prob_values_different [[1, 2], [2, 1], [1, 1]] false,
      row.length = 2) ∧
    (∀ i j, i < 2 → j < 2 → i ≠ j →
      ((prob_values_different [[1, 2], [2, 1], [1, 1]] false).getD i []).getD
          j none =
        some ((gtCount [[1, 2], [2, 1], [1, 1]] i j : ℚ) /
          (([[1, 2], [2, 1], [(1 : ℚ), 1]] : List (List ℚ)).length : ℚ))) ∧
    (∀ i, i < 2 →
      ((prob_values_different [[1, 2], [2, 1], [1, 1]] false).getD i []).getD
          i none =
        (if false then some (1 / 2) else none)) ∧
    (∀ i j, i < 2 → j < 2 →
      ((prob_values_different [[1, 2], [2, 1], [1, 1]] false).getD i []).getD
          j none = none ∨
      ∃ q, ((prob_values_different [[1, 2], [2, 1], [1, 1]] false).getD
          i []).getD j none = some q ∧ 0 ≤ q ∧ q ≤ 1) :=
  c4_dominance_matrix [[1, 2], [2, 1], [1, 1]] false 2 (by norm_num)
    (by intro r hr
        simp only [List.mem_cons, List.not_mem_nil, or_false] at hr
        rcases hr with rfl | rfl | rfl <;> simp)

/-- C10: for i ≠ j the two off-diagonal dominance entries satisfy
entry(i,j) + entry(j,i) = 1 − (fraction of draws tying the two values); in
particular they sum to at most 1, with equality exactly when no draw ties. -/
theorem c10_dominance_complement (arr : List (List ℚ)) (dflag : Bool)
    (k i j : Nat) (hn : 0 < arr.length) (hrect : ∀ r ∈ arr, r.length = k)
    (hi : i < k) (hj : j < k) (hne : i ≠ j) :
    ∃ p q,
      ((prob_values_different arr dflag).getD i []).getD j none = some p ∧
      ((prob_values_different arr dflag).getD j []).getD i none = some q ∧
      p + q = 1 - (eqCount arr i j : ℚ) / (arr.length : ℚ) ∧
      p + q ≤ 1 ∧ (p + q = 1 ↔ eqCount arr i j = 0) := by
  have hk : (arr.headD []).length = k := by
    cases arr with
    | nil => simp at hn
    | cons r t => exact hrect r (by simp)
  have hn0 : ((arr.length : ℚ)) ≠ 0 := by
    exact_mod_cast Nat.pos_iff_ne_zero.mp hn
  have hpart := count_partition arr i j
  have hsum : (gtCount arr i j : ℚ) / (arr.length : ℚ) +
      (gtCount arr j i : ℚ) / (arr.length : ℚ) =
      1 - (eqCount arr i j : ℚ) / (arr.length : ℚ) := by
    field_simp
    have : (gtCount arr i j : ℚ) + (gtCount arr j i : ℚ) +
        (eqCount arr i j : ℚ) = (arr.length : ℚ) := by exact_mod_cast hpart
    linarith
  refine ⟨(gtCount arr i j : ℚ) / (arr.length : ℚ),
    (gtCount arr j i : ℚ) / (arr.length : ℚ), ?_, ?_, hsum, ?_, ?_⟩
  · unfold prob_values_different
    rw [hk, getD_map_range _ _ hi, getD_map_range _ _ hj, if_neg hne]
  · unfold prob_values_different
    rw [hk, getD_map_range _ _ hj, getD_map_range _ _ hi,
      if_neg (fun hq => hne hq.symm)]
  · rw [hsum]
    have : 0 ≤ (eqCount arr i j : ℚ) / (arr.length : ℚ) := by positivity
    linarith
  · rw [hsum]
    constructor
    · intro h1
      have : (eqCount arr i j : ℚ) / (arr.length : ℚ) = 0 := by linarith
      have := (div_eq_zero_iff.mp this).resolve_right hn0
      exact_mod_cast this
    · intro h0
      rw [h0]
      norm_num

/-- C10 witness: a concrete (3, 2) input with one tie between the columns. -/
theorem c10_dominance_complement_witness :
    ∃ p q,
      ((prob_values_different [[1, 2], [2, 1], [1, 1]] false).getD 0 []).getD
        1 none = some p ∧
      ((prob_values_different [[1, 2], [2, 1], [1, 1]] false).getD 1 []).getD
        0 none = some q ∧
      p + q = 1 - (eqCount [[1, 2], [2, 1], [1, 1]] 0 1 : ℚ) /
        (([[1, 2], [2, 1], [(1 : ℚ), 1]] : List (List ℚ)).length : ℚ) ∧
      p + q ≤ 1 ∧ (p + q = 1 ↔ eqCount [[1, 2], [2, 1], [1, 1]] 0 1 = 0) :=
  c10_dominance_complement [[1, 2], [2, 1], [1, 1]] false 2 0 1 (by norm_num)
    (by intro r hr
        simp only [List.mem_cons, List.not_mem_nil, or_false] at hr
        rcases hr with rfl | rfl | rfl <;> simp)
    (by norm_num) (by norm_num) (by norm_num)

/-- Helper: a key is a market key exactly when some row carries it. -/
theorem mem_marketKeys (df : List Obs) (k : MarketKey) :
    k ∈ marketKeys df ↔ ∃ o ∈ df, obsKey o = k := by
  unfold marketKeys
  rw [List.Perm.mem_iff (List.perm_insertionSort keyLE _), List.mem_dedup]
  simp [List.mem_map]

/-- Helper: dropping all rows of small markets leaves each large market's
group unchanged. -/
theorem groupRows_filter_of_elig (df : List Obs) (k : MarketKey)
    (hk : 1 < (groupRows df k).length) :
    groupRows
      (df.filter (fun o => decide (1 < (groupRows df (obsKey o)).length))) k =
      groupRows df k := by
  unfold groupRows at hk ⊢
  rw [List.filter_filter]
  apply List.filter_congr
  intro o _
  by_cases hko : obsKey o = k
  · subst hko
    simp [decide_eq_true hk]
  · simp [hko]

/-- Helper: the sorted distinct keys of the filtered table are exactly the
keys of the markets with more than one observation. -/
theorem marketKeys_filter (df : List Obs) :
    marketKeys
      (df.filter (fun o => decide (1 < (groupRows df (obsKey o)).length))) =
      (marketKeys df).filter
        (fun k => decide (1 < (groupRows df k).length)) := by
  have hnd1 : (marketKeys
      (df.filter (fun o =>
        decide (1 < (groupRows df (obsKey o)).length)))).Nodup :=
    ((List.perm_insertionSort keyLE _).symm).nodup (List.nodup_dedup _)
  have hnd2 : ((marketKeys df).filter
      (fun k => decide (1 < (groupRows df k).length))).Nodup :=
    List.Nodup.filter _
      (((List.perm_insertionSort keyLE _).symm).nodup (List.nodup_dedup _))
  apply List.eq_of_perm_of_sorted (r := keyLE)
  · apply (List.perm_ext_iff_of_nodup hnd1 hnd2).mpr
    intro k
    rw [mem_marketKeys, List.mem_filter, mem_marketKeys]
    constructor
    · rintro ⟨o, ho, rfl⟩
      rw [List.mem_filter] at ho
      exact ⟨⟨o, ho.1, rfl⟩, ho.2⟩
    · rintro ⟨⟨o, ho, rfl⟩, hbig⟩
      exact ⟨o, List.mem_filter.mpr ⟨ho, hbig⟩, rfl⟩
  · exact List.sorted_insertionSort keyLE _
  · exact List.Sorted.filter _ (List.sorted_insertionSort keyLE _)

/-- Helper: the eligible groups of the table and of the table restricted to
markets with more than one observation coincide. -/
theorem eligibleGroups_filter (df : List Obs) :
    eligibleGroups
      (df.filter (fun o => decide (1 < (groupRows df (obsKey o)).length))) =
      eligibleGroups df := by
  unfold eligibleGroups
  rw [marketKeys_filter]
  rw [List.map_congr_left (g := groupRows df) (fun k hk => by
    rw [List.mem_filter] at hk
    exact groupRows_filter_of_elig df k (by simpa using hk.2))]
  rw [List.filter_map, List.filter_map]
  simp only [Function.comp_def]
  rw [List.filter_filter]
  apply congrArg (List.map (groupRows df))
  apply List.filter_congr
  intro k _
  exact Bool.and_self _

/-- C2: every market group with at most one observation contributes zero
rows to the Effect Propagator's output: deleting all rows that lie in such
groups leaves every returned array (monthly_flights, market_share,
airport_hub_size, effect, group id) unchanged, for every input table and
draw matrix. -/
theorem c2_small_markets_contribute_nothing (nbins : Nat) (rs : NDArray)
    (df : List Obs) :
    determine_effect_coeff nbins rs
      (df.filter (fun o => decide (1 < (groupRows df (obsKey o)).length))) =
    determine_effect_coeff nbins rs df := by
  unfold determine_effect_coeff
  rw [eligibleGroups_filter]

/-- Helper: a length-4 list is a 4-tuple. -/
theorem exists_four (l : List ℚ) (h : l.length = 4) :
    ∃ a b c d, l = [a, b, c, d] := by
  rcases l with _ | ⟨a, l⟩
  · simp at h
  rcases l with _ | ⟨b, l⟩
  · simp at h
  rcases l with _ | ⟨c, l⟩
  · simp at h
  rcases l with _ | ⟨d, l⟩
  · simp at h
  rcases l with _ | ⟨e, l⟩
  · exact ⟨a, b, c, d, rfl⟩
  · simp at h

/-- Helper: a length-4 data vector chunks into its single row. -/
theorem chunkRows_four (a b c d : ℚ) :
    chunkRows 4 [a, b, c, d] = [[a, b, c, d]] := rfl

/-- Helper: flattening a list of singletons is a map. -/
theorem flatten_map_singleton {α β : Type} (e : α → β) (l : List α) :
    (l.map (fun o => [e o])).flatten = l.map e := by
  induction l with
  | nil => rfl
  | cons a t ih => simp_all

/-- Helper: the effect fields of one group's point-estimate rows equal the
flattened single-column effect block of that group. -/
theorem trueBlock_effects (tp : List ℚ) (g : List Obs) :
    (trueBlock tp g).map TrueRow.effect = (groupEffectMat [tp] g).flatten := by
  unfold trueBlock groupEffectMat
  rw [List.map_map]
  have h1 : g.map (effectRow [tp] g) =
      g.map (fun o => [comp1 o * dot tp (othersByBin g o)]) :=
    List.map_congr_left (fun o _ => rfl)
  rw [h1, flatten_map_singleton]
  rfl

/-- Helper: over any group list, the point-estimate effect column equals the
row-major data of the single-column effect matrix. -/
theorem trueEffects_eq_effectData (tp : List ℚ) (gs : List (List Obs)) :
    (gs.flatMap (trueBlock tp)).map TrueRow.effect =
      ((gs.map (groupEffectMat [tp])).flatten).flatten := by
  induction gs with
  | nil => rfl
  | cons g t ih =>
    rw [List.flatMap_cons, List.map_append, List.map_cons, List.flatten_cons,
      List.flatten_append]
    rw [trueBlock_effects, ih]

/-- C6 counterexample: with the second market's rows listed before the
first's, the point-estimate variant (first-appearance group order) and the
matrix variant invoked on [true_params] (sorted group order) return their
per-observation effects in different row orders, so the effect column does
not equal the effect matrix column as the claim states. -/
theorem c6_group_order_counterexample :
    Except.map (fun rows => rows.map TrueRow.effect)
        (determine_effect_coeff_true [0, 0, 5, 0]
          [⟨2, 2000, 1, 3/5, 13/25, 10, 1, 2, [0,0,1,0]⟩,
           ⟨2, 2000, 1, 2/5, 13/25, 20, 1, 2, [0,0,1,0]⟩,
           ⟨1, 2000, 1, 1/2, 2/5, 30, 1, 2, [0,0,1,0]⟩,
           ⟨1, 2000, 1, 1/2, 2/5, 40, 1, 2, [0,0,1,0]⟩]) ≠
      Except.map (fun out => out.effect.data)
        (determine_effect_coeff 4 ⟨[1, 4], [0, 0, 5, 0]⟩
          [⟨2, 2000, 1, 3/5, 13/25, 10, 1, 2, [0,0,1,0]⟩,
           ⟨2, 2000, 1, 2/5, 13/25, 20, 1, 2, [0,0,1,0]⟩,
           ⟨1, 2000, 1, 1/2, 2/5, 30, 1, 2, [0,0,1,0]⟩,
           ⟨1, 2000, 1, 1/2, 2/5, 40, 1, 2, [0,0,1,0]⟩]) := by
  norm_num [determine_effect_coeff, determine_effect_coeff_true,
    eligibleGroups, eligibleGroupsFA, marketKeys, dedupFirst, dedupFirstAux,
    groupRows, obsKey, List.insertionSort, List.orderedInsert, List.dedup,
    List.pwFilter, keyLE, chunkRows, chunkRowsAux, groupEffectMat, effectRow,
    trueBlock, comp1, othersByBin, sTotalByBin, ownHubShare, vsum, dot,
    Except.map]
  simp only [List.cons_ne_nil, if_false]
  norm_num

/-- C6 (amended): the two variants compute the same scalar effect for each
observation; the full effect columns coincide whenever the table's markets
appear in sorted key order (first-appearance order = sorted order), the
matrix variant being invoked with the single-row draw matrix [true_params].
In general the matrix variant sorts market groups while the point-estimate
variant keeps first-appearance order, so the columns agree only up to that
reordering of market blocks. -/
theorem c6_point_estimate_refinement (tp : List ℚ) (df : List Obs)
    (htp : tp.length = 4)
    (horder : dedupFirst (df.map obsKey) = marketKeys df) :
    ∃ rows out,
      determine_effect_coeff_true tp df = Except.ok rows ∧
      determine_effect_coeff 4 ⟨[1, 4], tp⟩ df = Except.ok out ∧
      rows.map TrueRow.effect = out.effect.data := by
  obtain ⟨a, b, c, d, rfl⟩ := exists_four tp htp
  have hFA : eligibleGroupsFA df = eligibleGroups df := by
    unfold eligibleGroupsFA eligibleGroups
    rw [horder]
  have htrue : determine_effect_coeff_true [a, b, c, d] df =
      Except.ok ((eligibleGroups df).flatMap (trueBlock [a, b, c, d])) := by
    unfold determine_effect_coeff_true
    rw [if_neg (by simp), hFA]
  have hdet : ∃ out,
      determine_effect_coeff 4 ⟨[1, 4], [a, b, c, d]⟩ df = Except.ok out ∧
      out.effect.data =
        ((eligibleGroups df).map
          (groupEffectMat [[a, b, c, d]])).flatten.flatten := by
    unfold determine_effect_coeff
    rw [if_neg (by simp)]
    simp only [chunkRows_four]
    by_cases hgs : eligibleGroups df = []
    · rw [if_pos hgs]
      exact ⟨_, rfl, by rw [hgs]; rfl⟩
    · rw [if_neg hgs]
      exact ⟨_, rfl, rfl⟩
  obtain ⟨out, hdet1, hdet2⟩ := hdet
  refine ⟨_, out, htrue, hdet1, ?_⟩
  rw [hdet2]
  exact trueEffects_eq_effectData _ _

/-- C6 witness: a table whose two markets already appear in sorted key
order. -/
theorem c6_point_estimate_refinement_witness :
    ∃ rows out,
      determine_effect_coeff_true [0, 0, 5, 0]
          [⟨1, 2000, 1, 1/2, 2/5, 30, 1, 2, [0,0,1,0]⟩,
           ⟨1, 2000, 1, 1/2, 2/5, 40, 1, 2, [0,0,1,0]⟩,
           ⟨2, 2000, 1, 3/5, 13/25, 10, 1, 2, [0,0,1,0]⟩,
           ⟨2, 2000, 1, 2/5, 13/25, 20, 1, 2, [0,0,1,0]⟩] = Except.ok rows ∧
      determine_effect_coeff 4 ⟨[1, 4], [0, 0, 5, 0]⟩
          [⟨1, 2000, 1, 1/2, 2/5, 30, 1, 2, [0,0,1,0]⟩,
           ⟨1, 2000, 1, 1/2, 2/5, 40, 1, 2, [0,0,1,0]⟩,
           ⟨2, 2000, 1, 3/5, 13/25, 10, 1, 2, [0,0,1,0]⟩,
           ⟨2, 2000, 1, 2/5, 13/25, 20, 1, 2, [0,0,1,0]⟩] = Except.ok out ∧
      rows.map TrueRow.effect = out.effect.data :=
  c6_point_estimate_refinement [0, 0, 5, 0]
    [⟨1, 2000, 1, 1/2, 2/5, 30, 1, 2, [0,0,1,0]⟩,
     ⟨1, 2000, 1, 1/2, 2/5, 40, 1, 2, [0,0,1,0]⟩,
     ⟨2, 2000, 1, 3/5, 13/25, 10, 1, 2, [0,0,1,0]⟩,
     ⟨2, 2000, 1, 2/5, 13/25, 20, 1, 2, [0,0,1,0]⟩] rfl
    (by norm_num [dedupFirst, dedupFirstAux, marketKeys, obsKey,
      List.insertionSort, List.orderedInsert, List.dedup, List.pwFilter,
      keyLE])

/-- Helper: a mapM whose steps all succeed collects the mapped values. -/
theorem mapM_ok_of_all {α β : Type} (l : List α) (f : α → Except String β)
    (g : α → β) (h : ∀ a ∈ l, f a = Except.ok (g a)) :
    l.mapM f = Except.ok (l.map g) := by
  induction l with
  | nil => rfl
  | cons a t ih =>
    rw [List.mapM_cons, h a (by simp), ih (fun b hb => h b (by simp [hb]))]
    rfl

/-- Helper: a mapM fails exactly when some step fails. -/
theorem mapM_isErr_any {α β : Type} (l : List α) (f : α → Except String β) :
    isErr (l.mapM f) = l.any (fun a => isErr (f a)) := by
  induction l with
  | nil => rfl
  | cons a t ih =>
    rw [List.mapM_cons, List.any_cons]
    cases hfa : f a with
    | error e => rfl
    | ok b =>
      cases hmt : t.mapM f with
      | error e2 =>
        rw [hmt] at ih
        rw [← ih]
        rfl
      | ok bs =>
        rw [hmt] at ih
        rw [← ih]
        rfl

/-- Helper: binding into a pure tail does not change failure. -/
theorem isErr_bind_pure {α β : Type} (e : Except String α) (g : α → β) :
    isErr (do
      let a ← e
      pure (g a)) = isErr e := by
  cases e <;> rfl

/-- Helper: any-of-constant over a range. -/
theorem any_const_range (n : Nat) (b : Bool) :
    (List.range n).any (fun _ => b) = (b && decide (0 < n)) := by
  cases n with
  | zero => simp
  | succ m =>
    cases b with
    | false => simp
    | true =>
      have h0 : decide (0 < m + 1) = true := decide_eq_true (Nat.succ_pos m)
      simp only [Bool.true_and, h0]
      rw [List.any_eq_true]
      exact ⟨0, by simp, rfl⟩

/-- Helper: a regression call fails exactly on empty input. -/
theorem isErr_lsFit (x y : List ℚ) (w : Option (List ℚ)) :
    isErr (lsFit x y w) = x.isEmpty := by
  unfold lsFit
  cases hx : x.isEmpty <;> simp [hx, isErr]

/-- Helper: a slice is empty exactly when its index list is. -/
theorem sliceAt_isEmpty (l : List ℚ) (idx : List Nat) :
    (sliceAt l idx).isEmpty = idx.isEmpty := by
  cases idx <;> rfl

/-- Helper: a mapped range is empty exactly when the range is. -/
theorem map_range_isEmpty {α : Type} (g : Nat → α) (n : Nat) :
    ((List.range n).map g).isEmpty = decide (n = 0) := by
  cases n with
  | zero => rfl
  | succ k =>
    rw [List.range_succ_eq_map]
    rfl

/-- Helper: the summary block fails exactly when one of its input vectors
is empty (the first median percentile raises on a zero-size array). -/
theorem isErr_summarize (n : Nat) (iv sv : List ℚ) :
    isErr (summarize n iv sv) = (iv.isEmpty || sv.isEmpty) := by
  cases hiv : iv.isEmpty <;> cases hsv : sv.isEmpty <;>
    simp [summarize, percentile, hiv, hsv, isErr, Bind.bind, Except.bind,
      Pure.pure, Except.pure]

/-- Helper: on nonempty vectors the summary block returns the percentile
and mean record. -/
theorem summarize_ok (n : Nat) (iv sv : List ℚ) (hiv : iv.isEmpty = false)
    (hsv : sv.isEmpty = false) :
    summarize n iv sv = Except.ok (summaryVals n iv sv) := by
  simp [summarize, percentile, summaryVals, hiv, hsv, Bind.bind, Except.bind,
    Pure.pure, Except.pure]

/-- Helper: with a nonempty stratum and at least one column, the column loop
returns the per-column least-squares parameters and their summary. -/
theorem hubFitRegs_ok (ms_h : List ℚ) (eff : List (List ℚ)) (idx : List Nat)
    (w_h : Option (List ℚ)) (cols : Nat) (hms : ms_h.isEmpty = false)
    (hc : 0 < cols) :
    hubFitRegs ms_h eff idx w_h cols =
      Except.ok
        ((List.range cols).map (fun c =>
          (lsParams ms_h (sliceAt (columnOf eff c) idx) w_h).2),
         (List.range cols).map (fun c =>
          (lsParams ms_h (sliceAt (columnOf eff c) idx) w_h).1),
         summaryVals idx.length
           ((List.range cols).map (fun c =>
             (lsParams ms_h (sliceAt (columnOf eff c) idx) w_h).1))
           ((List.range cols).map (fun c =>
             (lsParams ms_h (sliceAt (columnOf eff c) idx) w_h).2))) := by
  unfold hubFitRegs
  rw [mapM_ok_of_all _ _
    (fun c => lsParams ms_h (sliceAt (columnOf eff c) idx) w_h)
    (fun c _ => by unfold lsFit; rw [if_neg (by simp [hms])])]
  simp only [Bind.bind, Except.bind]
  have hne1 : (((List.range cols).map
      (fun c => lsParams ms_h (sliceAt (columnOf eff c) idx) w_h)).map
        (fun p => p.1)).isEmpty = false := by
    rw [List.map_map, map_range_isEmpty]
    exact decide_eq_false (Nat.pos_iff_ne_zero.mp hc)
  have hne2 : (((List.range cols).map
      (fun c => lsParams ms_h (sliceAt (columnOf eff c) idx) w_h)).map
        (fun p => p.2)).isEmpty = false := by
    rw [List.map_map, map_range_isEmpty]
    exact decide_eq_false (Nat.pos_iff_ne_zero.mp hc)
  rw [summarize_ok _ _ _ hne1 hne2]
  simp only [Except.bind, Pure.pure, Except.pure, List.map_map]
  rfl

/-- Helper: the column loop of one hub fails exactly when the stratum is
empty with at least one column, or there are no columns at all (the
percentile summary is then taken over empty vectors). -/
theorem isErr_hubFitRegs (ms_h : List ℚ) (eff : List (List ℚ))
    (idx : List Nat) (w_h : Option (List ℚ)) (cols : Nat) :
    isErr (hubFitRegs ms_h eff idx w_h cols) =
      ((ms_h.isEmpty && decide (0 < cols)) || decide (cols = 0)) := by
  rcases Nat.eq_zero_or_pos cols with hc | hc
  · subst hc
    rw [show hubFitRegs ms_h eff idx w_h 0 =
      Except.error ("zero-size array to reduction operation") from rfl]
    simp [isErr]
  · cases hms : ms_h.isEmpty with
    | true =>
      rcases Nat.exists_eq_succ_of_ne_zero (Nat.pos_iff_ne_zero.mp hc) with
        ⟨k, rfl⟩
      unfold hubFitRegs
      rw [List.range_succ_eq_map, List.mapM_cons]
      rw [show lsFit ms_h (sliceAt (columnOf eff 0) idx) w_h =
        Except.error ("empty regression input") from by
          unfold lsFit
          rw [if_pos hms]]
      have h1 : (0 : Nat) < k + 1 := Nat.succ_pos k
      simp [isErr, Bind.bind, Except.bind, h1]
    | false =>
      rw [hubFitRegs_ok ms_h eff idx w_h cols hms hc]
      have h2 : decide (cols = 0) = false :=
        decide_eq_false (Nat.pos_iff_ne_zero.mp hc)
      simp [isErr, h2]

/-- Helper: with weights present, one hub iteration fails exactly on a
non-positive sliced weight, an empty stratum with at least one column, or a
zero-column effect matrix. -/
theorem isErr_hubFit_some (ms hub : List ℚ) (eff : List (List ℚ))
    (w : List ℚ) (cols : Nat) (h : ℚ) :
    isErr (hubFit ms hub eff (some w) cols h) =
      ((sliceAt w (hubIdx hub h)).any (fun x => decide (x ≤ 0)) ||
        (((hubIdx hub h).isEmpty && decide (0 < cols)) ||
          decide (cols = 0))) := by
  simp only [hubFit]
  cases hb : (sliceAt w (hubIdx hub h)).any (fun x => decide (x ≤ 0)) with
  | false =>
    rw [if_neg (by simp [hb])]
    rw [isErr_hubFitRegs, sliceAt_isEmpty]
    simp
  | true =>
    rw [if_pos (by simp [hb])]
    simp [isErr]

/-- Helper: without weights, one hub iteration fails exactly on an empty
stratum with at least one column or a zero-column effect matrix. -/
theorem isErr_hubFit_none (ms hub : List ℚ) (eff : List (List ℚ))
    (cols : Nat) (h : ℚ) :
    isErr (hubFit ms hub eff none cols h) =
      (((hubIdx hub h).isEmpty && decide (0 < cols)) ||
        decide (cols = 0)) := by
  simp only [hubFit]
  rw [isErr_hubFitRegs, sliceAt_isEmpty]

/-- Helper: with weights present, a hub iteration whose sliced weights are
all positive, whose stratum is nonempty and with at least one column
performs the weighted fits on the hub slices and summarizes them. -/
theorem hubFit_some_ok (ms hub : List ℚ) (eff : List (List ℚ)) (w : List ℚ)
    (cols : Nat) (h : ℚ)
    (hwgood : (sliceAt w (hubIdx hub h)).any (fun x => decide (x ≤ 0)) = false)
    (hidx : (hubIdx hub h).isEmpty = false) (hc : 0 < cols) :
    hubFit ms hub eff (some w) cols h =
      Except.ok
        ((List.range cols).map (fun c =>
          (wlsParams (sliceAt ms (hubIdx hub h))
            (sliceAt (columnOf eff c) (hubIdx hub h))
            (sliceAt w (hubIdx hub h))).2),
         (List.range cols).map (fun c =>
          (wlsParams (sliceAt ms (hubIdx hub h))
            (sliceAt (columnOf eff c) (hubIdx hub h))
            (sliceAt w (hubIdx hub h))).1),
         summaryVals (hubIdx hub h).length
           ((List.range cols).map (fun c =>
             (wlsParams (sliceAt ms (hubIdx hub h))
               (sliceAt (columnOf eff c) (hubIdx hub h))
               (sliceAt w (hubIdx hub h))).1))
           ((List.range cols).map (fun c =>
             (wlsParams (sliceAt ms (hubIdx hub h))
               (sliceAt (columnOf eff c) (hubIdx hub h))
               (sliceAt w (hubIdx hub h))).2))) := by
  simp only [hubFit]
  rw [if_neg (by simp [hwgood])]
  rw [hubFitRegs_ok _ _ _ _ _ (by rw [sliceAt_isEmpty]; exact hidx) hc]
  rfl

/-- Helper: without weights, a hub iteration with a nonempty stratum and at
least one column performs the ordinary fits on the hub slices and
summarizes them. -/
theorem hubFit_none_ok (ms hub : List ℚ) (eff : List (List ℚ))
    (cols : Nat) (h : ℚ)
    (hidx : (hubIdx hub h).isEmpty = false) (hc : 0 < cols) :
    hubFit ms hub eff none cols h =
      Except.ok
        ((List.range cols).map (fun c =>
          (olsParams (sliceAt ms (hubIdx hub h))
            (sliceAt (columnOf eff c) (hubIdx hub h))).2),
         (List.range cols).map (fun c =>
          (olsParams (sliceAt ms (hubIdx hub h))
            (sliceAt (columnOf eff c) (hubIdx hub h))).1),
         summaryVals (hubIdx hub h).length
           ((List.range cols).map (fun c =>
             (olsParams (sliceAt ms (hubIdx hub h))
               (sliceAt (columnOf eff c) (hubIdx hub h))).1))
           ((List.range cols).map (fun c =>
             (olsParams (sliceAt ms (hubIdx hub h))
               (sliceAt (columnOf eff c) (hubIdx hub h))).2))) := by
  simp only [hubFit]
  rw [hubFitRegs_ok _ _ _ _ _ (by rw [sliceAt_isEmpty]; exact hidx) hc]
  rfl

/-- Helper: unfolded form of `find_slopes` once the alignment guards pass. -/
theorem find_slopes_unfolded (ms hub : List ℚ) (eff : List (List ℚ))
    (wopt : Option (List ℚ)) (S : Nat)
    (h1 : ¬(ms.length ≠ hub.length ∨ ms.length ≠ eff.length))
    (h2 : weightsLenBad wopt hub.length = false)
    (hcols : (eff.headD []).length = S) :
    find_slopes ms hub eff wopt = (do
      let rs ← ([0, 1, 2, 3] : List ℚ).mapM (hubFit ms hub eff wopt S)
      pure ⟨rs.map (fun r => r.1), rs.map (fun r => r.2.1),
            rs.map (fun r => r.2.2)⟩) := by
  unfold find_slopes
  rw [if_neg h1, if_neg (by simp [h2])]
  simp only [hcols]

/-- Helper: a non-positive weight exists exactly when some hub slice shows
one, provided every hub value is one of the four categories and the arrays
align. -/
theorem weight_bad_bridge (hub w : List ℚ) (N : Nat)
    (hhub : hub.length = N) (hw : w.length = N)
    (hvals : ∀ x ∈ hub, x = 0 ∨ x = 1 ∨ x = 2 ∨ x = 3) :
    ((∃ h ∈ ([0, 1, 2, 3] : List ℚ),
        (sliceAt w (hubIdx hub h)).any (fun x => decide (x ≤ 0)) = true) ↔
      ∃ x ∈ w, x ≤ 0) := by
  constructor
  · rintro ⟨h, _, hany⟩
    rw [List.any_eq_true] at hany
    obtain ⟨v, hv, hvle⟩ := hany
    rw [decide_eq_true_eq] at hvle
    unfold sliceAt at hv
    rw [List.mem_map] at hv
    obtain ⟨i, hiidx, rfl⟩ := hv
    unfold hubIdx at hiidx
    rw [List.mem_filter, List.mem_range] at hiidx
    have hiw : i < w.length := by omega
    refine ⟨w.getD i 0, ?_, hvle⟩
    rw [List.getD_eq_getElem _ _ hiw]
    exact List.getElem_mem hiw
  · rintro ⟨x, hx, hxle⟩
    obtain ⟨i, hi, rfl⟩ := List.mem_iff_getElem.mp hx
    have hihub : i < hub.length := by omega
    have hmemh := hvals (hub.getD i 0)
      (by rw [List.getD_eq_getElem _ _ hihub]; exact List.getElem_mem hihub)
    refine ⟨hub.getD i 0, ?_, ?_⟩
    · rcases hmemh with hcase | hcase | hcase | hcase <;> rw [hcase] <;> simp
    · rw [List.any_eq_true]
      refine ⟨w.getD i 0, ?_, ?_⟩
      · unfold sliceAt
        rw [List.mem_map]
        refine ⟨i, ?_, rfl⟩
        unfold hubIdx
        rw [List.mem_filter, List.mem_range]
        exact ⟨hihub, by simp⟩
      · rw [List.getD_eq_getElem _ _ hi]
        simp [hxle]

/-- Helper: boolean shape of a hub-iteration failure flag with weights. -/
theorem bool_err_split {a b c d : Bool} (h : (a || ((b && c) || d)) = false) :
    a = false ∧ (b = false ∨ c = false) ∧ d = false := by
  cases a <;> cases b <;> cases c <;> cases d <;> simp_all

/-- Helper: boolean shape of a hub-iteration failure flag without
weights. -/
theorem bool_err_split2 {b c d : Bool} (h : ((b && c) || d) = false) :
    (b = false ∨ c = false) ∧ d = false := by
  cases b <;> cases c <;> cases d <;> simp_all

/-- C8 counterexample: one observation in hub 0 with a strictly positive
weight; hub stratum 1 is empty, so the regression call on the empty slice
fails even though no weight is non-positive, refuting "raises if and only
if some weight is non-positive". -/
theorem c8_empty_stratum_counterexample :
    isErr (find_slopes [1/2] [0] [[1]] (some [1])) = true ∧ ¬((1 : ℚ) ≤ 0) := by
  constructor
  · norm_num [find_slopes, weightsLenBad, hubFit, hubFitRegs, hubIdx,
      sliceAt, columnOf, lsFit, lsParams, summarize, percentile, isErr,
      List.mapM, List.mapM.loop, Bind.bind, Except.bind, Pure.pure,
      Except.pure, List.range, List.range.loop, List.filter]
  · norm_num

/-- C8 (amended): with weights present, aligned arrays, at least one
observation, and every hub_size in {0,1,2,3}, find_slopes raises an
invalid-argument error if and only if some weight is non-positive, OR the
effect matrix has at least one column and some hub stratum in {0,1,2,3} is
empty (the statsmodels call fails on the empty regression input, spec
§4.4), OR the effect matrix has zero columns (the percentile summaries are
taken over empty per-hub vectors and raise); when it returns, the slopes
are the weighted least-squares fits on the hub slices, and with weights
None the ordinary least-squares fits. -/
theorem c8_find_slopes_weights (ms hub : List ℚ) (eff : List (List ℚ))
    (w : List ℚ) (N S : Nat)
    (hms : ms.length = N) (hhub : hub.length = N) (heff : eff.length = N)
    (hw : w.length = N) (hN : 0 < N) (hrect : ∀ r ∈ eff, r.length = S)
    (hvals : ∀ x ∈ hub, x = 0 ∨ x = 1 ∨ x = 2 ∨ x = 3) :
    (isErr (find_slopes ms hub eff (some w)) = true ↔
      (∃ x ∈ w, x ≤ 0) ∨
        (0 < S ∧ ∃ h ∈ ([0, 1, 2, 3] : List ℚ), hubIdx hub h = []) ∨
        S = 0) ∧
    (∀ out, find_slopes ms hub eff (some w) = Except.ok out →
      out.slopes = ([0, 1, 2, 3] : List ℚ).map (fun h =>
        (List.range S).map (fun c =>
          (wlsParams (sliceAt ms (hubIdx hub h))
            (sliceAt (columnOf eff c) (hubIdx hub h))
            (sliceAt w (hubIdx hub h))).2))) ∧
    (∀ out, find_slopes ms hub eff none = Except.ok out →
      out.slopes = ([0, 1, 2, 3] : List ℚ).map (fun h =>
        (List.range S).map (fun c =>
          (olsParams (sliceAt ms (hubIdx hub h))
            (sliceAt (columnOf eff c) (hubIdx hub h))).2))) := by
  have hcols : (eff.headD []).length = S := by
    cases eff with
    | nil => simp at heff; omega
    | cons r t => exact hrect r (by simp)
  have hg1 : ¬(ms.length ≠ hub.length ∨ ms.length ≠ eff.length) := by
    simp [hms, hhub, heff]
  have hg2some : weightsLenBad (some w) hub.length = false := by
    simp [weightsLenBad, hw, hhub]
  have hg2none : weightsLenBad none hub.length = false := rfl
  have hunf := find_slopes_unfolded ms hub eff (some w) S hg1 hg2some hcols
  have hunfN := find_slopes_unfolded ms hub eff none S hg1 hg2none hcols
  refine ⟨?_, ?_, ?_⟩
  · rw [hunf, isErr_bind_pure, mapM_isErr_any, List.any_eq_true]
    constructor
    · rintro ⟨h, hmem, hh⟩
      rw [isErr_hubFit_some] at hh
      simp only [Bool.or_eq_true, Bool.and_eq_true, decide_eq_true_eq,
        List.isEmpty_iff] at hh
      rcases hh with hbad | ⟨hempty, hS⟩ | hS0
      · exact Or.inl ((weight_bad_bridge hub w N hhub hw hvals).mp
          ⟨h, hmem, hbad⟩)
      · exact Or.inr (Or.inl ⟨hS, h, hmem, hempty⟩)
      · exact Or.inr (Or.inr hS0)
    · rintro (hbad | ⟨hS, h, hmem, hempty⟩ | hS0)
      · obtain ⟨h, hmem, hany⟩ :=
          (weight_bad_bridge hub w N hhub hw hvals).mpr hbad
        exact ⟨h, hmem, by rw [isErr_hubFit_some, hany]; rfl⟩
      · refine ⟨h, hmem, ?_⟩
        rw [isErr_hubFit_some, hempty, decide_eq_true hS]
        simp
      · refine ⟨0, by simp, ?_⟩
        rw [isErr_hubFit_some, decide_eq_true hS0]
        simp
  · intro out hok
    rw [hunf] at hok
    have herr : ∀ h ∈ ([0, 1, 2, 3] : List ℚ),
        isErr (hubFit ms hub eff (some w) S h) = false := by
      have h0 : isErr (do
          let rs ← ([0, 1, 2, 3] : List ℚ).mapM
            (hubFit ms hub eff (some w) S)
          pure (⟨rs.map (fun r => r.1), rs.map (fun r => r.2.1),
            rs.map (fun r => r.2.2)⟩ : SlopesOut)) = false := by
        rw [hok]; rfl
      rw [isErr_bind_pure, mapM_isErr_any, List.any_eq_false] at h0
      intro h hmem
      have := h0 h hmem
      revert this
      cases isErr (hubFit ms hub eff (some w) S h) <;> simp
    have hgood : ∀ h ∈ ([0, 1, 2, 3] : List ℚ),
        (sliceAt w (hubIdx hub h)).any (fun x => decide (x ≤ 0)) = false ∧
        (hubIdx hub h).isEmpty = false ∧ 0 < S := by
      intro h hmem
      have hh := herr h hmem
      rw [isErr_hubFit_some] at hh
      obtain ⟨ha, hbc, hd⟩ := bool_err_split hh
      have hS : 0 < S := by
        have := of_decide_eq_false hd
        omega
      refine ⟨ha, ?_, hS⟩
      rcases hbc with hb | hcfalse
      · exact hb
      · exact absurd hS (of_decide_eq_false hcfalse)
    have hmapM : ([0, 1, 2, 3] : List ℚ).mapM
        (hubFit ms hub eff (some w) S) =
        Except.ok (([0, 1, 2, 3] : List ℚ).map (fun h =>
          ((List.range S).map (fun c =>
            (wlsParams (sliceAt ms (hubIdx hub h))
              (sliceAt (columnOf eff c) (hubIdx hub h))
              (sliceAt w (hubIdx hub h))).2),
           (List.range S).map (fun c =>
            (wlsParams (sliceAt ms (hubIdx hub h))
              (sliceAt (columnOf eff c) (hubIdx hub h))
              (sliceAt w (hubIdx hub h))).1),
           summaryVals (hubIdx hub h).length
             ((List.range S).map (fun c =>
               (wlsParams (sliceAt ms (hubIdx hub h))
                 (sliceAt (columnOf eff c) (hubIdx hub h))
                 (sliceAt w (hubIdx hub h))).1))
             ((List.range S).map (fun c =>
               (wlsParams (sliceAt ms (hubIdx hub h))
                 (sliceAt (columnOf eff c) (hubIdx hub h))
                 (sliceAt w (hubIdx hub h))).2))))) :=
      mapM_ok_of_all _ _ _ (fun h hmem =>
        hubFit_some_ok ms hub eff w S h (hgood h hmem).1
          (hgood h hmem).2.1 (hgood h hmem).2.2)
    rw [hmapM] at hok
    simp only [Bind.bind, Except.bind, Pure.pure, Except.pure] at hok
    rw [Except.ok.injEq] at hok
    rw [← hok]
    simp [List.map_map]
  · intro out hok
    rw [hunfN] at hok
    have herr : ∀ h ∈ ([0, 1, 2, 3] : List ℚ),
        isErr (hubFit ms hub eff none S h) = false := by
      have h0 : isErr (do
          let rs ← ([0, 1, 2, 3] : List ℚ).mapM (hubFit ms hub eff none S)
          pure (⟨rs.map (fun r => r.1), rs.map (fun r => r.2.1),
            rs.map (fun r => r.2.2)⟩ : SlopesOut)) = false := by
        rw [hok]; rfl
      rw [isErr_bind_pure, mapM_isErr_any, List.any_eq_false] at h0
      intro h hmem
      have := h0 h hmem
      revert this
      cases isErr (hubFit ms hub eff none S h) <;> simp
    have hgood : ∀ h ∈ ([0, 1, 2, 3] : List ℚ),
        (hubIdx hub h).isEmpty = false ∧ 0 < S := by
      intro h hmem
      have hh := herr h hmem
      rw [isErr_hubFit_none] at hh
      obtain ⟨hbc, hd⟩ := bool_err_split2 hh
      have hS : 0 < S := by
        have := of_decide_eq_false hd
        omega
      refine ⟨?_, hS⟩
      rcases hbc with hb | hcfalse
      · exact hb
      · exact absurd hS (of_decide_eq_false hcfalse)
    have hmapM : ([0, 1, 2, 3] : List ℚ).mapM (hubFit ms hub eff none S) =
        Except.ok (([0, 1, 2, 3] : List ℚ).map (fun h =>
          ((List.range S).map (fun c =>
            (olsParams (sliceAt ms (hubIdx hub h))
              (sliceAt (columnOf eff c) (hubIdx hub h))).2),
           (List.range S).map (fun c =>
            (olsParams (sliceAt ms (hubIdx hub h))
              (sliceAt (columnOf eff c) (hubIdx hub h))).1),
           summaryVals (hubIdx hub h).length
             ((List.range S).map (fun c =>
               (olsParams (sliceAt ms (hubIdx hub h))
                 (sliceAt (columnOf eff c) (hubIdx hub h))).1))
             ((List.range S).map (fun c =>
               (olsParams (sliceAt ms (hubIdx hub h))
                 (sliceAt (columnOf eff c) (hubIdx hub h))).2))))) :=
      mapM_ok_of_all _ _ _ (fun h hmem =>
        hubFit_none_ok ms hub eff S h (hgood h hmem).1 (hgood h hmem).2)
    rw [hmapM] at hok
    simp only [Bind.bind, Except.bind, Pure.pure, Except.pure] at hok
    rw [Except.ok.injEq] at hok
    rw [← hok]
    simp [List.map_map]

/-- C8 witness: eight observations, two per hub stratum with distinct
market shares (nonsingular designs), all weights positive. -/
theorem c8_find_slopes_weights_witness :
    (isErr (find_slopes [1/10, 2/10, 3/10, 4/10, 5/10, 6/10, 7/10, 8/10]
        [0, 0, 1, 1, 2, 2, 3, 3]
        [[1], [2], [3], [4], [5], [6], [7], [8]]
        (some [1, 1, 1, 1, 1, 1, 1, 1])) = true ↔
      (∃ x ∈ ([1, 1, 1, 1, 1, 1, 1, 1] : List ℚ), x ≤ 0) ∨
        (0 < 1 ∧ ∃ h ∈ ([0, 1, 2, 3] : List ℚ),
          hubIdx [0, 0, 1, 1, 2, 2, 3, 3] h = []) ∨
        1 = 0) ∧
    (∀ out, find_slopes [1/10, 2/10, 3/10, 4/10, 5/10, 6/10, 7/10, 8/10]
        [0, 0, 1, 1, 2, 2, 3, 3]
        [[1], [2], [3], [4], [5], [6], [7], [8]]
        (some [1, 1, 1, 1, 1, 1, 1, 1]) = Except.ok out →
      out.slopes = ([0, 1, 2, 3] : List ℚ).map (fun h =>
        (List.range 1).map (fun c =>
          (wlsParams (sliceAt [1/10, 2/10, 3/10, 4/10, 5/10, 6/10, 7/10, 8/10]
              (hubIdx [0, 0, 1, 1, 2, 2, 3, 3] h))
            (sliceAt (columnOf [[1], [2], [3], [4], [5], [6], [7], [8]] c)
              (hubIdx [0, 0, 1, 1, 2, 2, 3, 3] h))
            (sliceAt [1, 1, 1, 1, 1, 1, 1, 1]
              (hubIdx [0, 0, 1, 1, 2, 2, 3, 3] h))).2))) ∧
    (∀ out, find_slopes [1/10, 2/10, 3/10, 4/10, 5/10, 6/10, 7/10, 8/10]
        [0, 0, 1, 1, 2, 2, 3, 3]
        [[1], [2], [3], [4], [5], [6], [7], [8]] none = Except.ok out →
      out.slopes = ([0, 1, 2, 3] : List ℚ).map (fun h =>
        (List.range 1).map (fun c =>
          (olsParams (sliceAt [1/10, 2/10, 3/10, 4/10, 5/10, 6/10, 7/10, 8/10]
              (hubIdx [0, 0, 1, 1, 2, 2, 3, 3] h))
            (sliceAt (columnOf [[1], [2], [3], [4], [5], [6], [7], [8]] c)
              (hubIdx [0, 0, 1, 1, 2, 2, 3, 3] h))).2))) :=
  c8_find_slopes_weights [1/10, 2/10, 3/10, 4/10, 5/10, 6/10, 7/10, 8/10]
    [0, 0, 1, 1, 2, 2, 3, 3] [[1], [2], [3], [4], [5], [6], [7], [8]]
    [1, 1, 1, 1, 1, 1, 1, 1] 8 1 rfl rfl rfl rfl (by norm_num)
    (by intro r hr
        simp only [List.mem_cons, List.not_mem_nil, or_false] at hr
        rcases hr with rfl | rfl | rfl | rfl | rfl | rfl | rfl | rfl <;> rfl)
    (by intro x hx
        simp only [List.mem_cons, List.not_mem_nil, or_false] at hx
        rcases hx with rfl | rfl | rfl | rfl | rfl | rfl | rfl | rfl <;>
          norm_num)
